import Mathlib

/-!
Verification of the RandomStudentPicker core (`main.py`): the weighted
selection / weight-decay model (`StudentManager`) and the spinner animation
scheduling state machine (`RandomStudentPickerApp`).

Numbers: Python floats are modelled as exact rationals (`ℚ`), matching the
spec's "real number" data model; Python ints are `ℤ`/`ℕ`.  Python's
`int(x)` truncation toward zero is modelled explicitly (`pyInt`), and
Python's `%` on integers (sign of the divisor) is `Int.emod`.

Randomness: `random.choices` / `random.randint` draws are modelled by an
explicit `choice` / `randStart` parameter, so the theorems quantify over
every possible draw.  The mutable `studentDictionary : Dict[int, Student]`
(with keys `0..n-1` and insertion-ordered `.values()`) is modelled as a
`List Student`; in-place mutation of one `Student` object is `List.set` at
that student's index.
-/

/-- `Student` dataclass from `main.py`: `name: str`, `weight: float`,
`count: int`. -/
structure Student where
  name : String
  weight : ℚ
  count : ℤ
deriving DecidableEq, Repr

/-- Default used only to read a list entry whose index is known to be in
bounds (`List.getD`). -/
def defaultStudent : Student := ⟨"", 0, 0⟩

/-- The in-place mutation performed on the selected student:
`selectedStudent.count += 1;
 selectedStudent.weight = max(selectedStudent.weight - weightDecreaseAmount, 0.0)`. -/
def updateSelectedStudent (d : ℚ) (s : Student) : Student :=
  { s with count := s.count + 1, weight := max (s.weight - d) 0 }

/-- Indices of the eligible students, i.e. the positions of
`activeStudentList = [student for student in values() if student.weight > 0.0]`
inside the roster. -/
def activeIndices (roster : List Student) : List ℕ :=
  (List.range roster.length).filter fun i => 0 < (roster.getD i defaultStudent).weight

/-- `StudentManager.pickRandomStudent`.  Filters to students with
`weight > 0`; if none remain returns `None` and leaves the roster alone;
otherwise one eligible student (chosen by the random draw, modelled by
`choice`) gets `count += 1` and `weight = max(weight - d, 0)` in place and
is returned. -/
def pickRandomStudent (d : ℚ) (roster : List Student) (choice : ℕ) :
    Option Student × List Student :=
  match activeIndices roster with
  | [] => (none, roster)
  | i :: is =>
      let idx := (i :: is).getD (choice % (i :: is).length) i
      let sel := updateSelectedStudent d (roster.getD idx defaultStudent)
      (some sel, roster.set idx sel)

/-- `StudentManager.resetAllStudents(defaultWeight)`:
every student gets `count = 0` and `weight = defaultWeight`. -/
def resetAllStudents (defaultWeight : ℚ) (roster : List Student) : List Student :=
  roster.map fun s => { s with count := 0, weight := defaultWeight }

/-- `StudentManager.resetAllWeights(defaultWeight)`:
every student gets `weight = defaultWeight`, `count` untouched. -/
def resetAllWeights (defaultWeight : ℚ) (roster : List Student) : List Student :=
  roster.map fun s => { s with weight := defaultWeight }

/-- A sequence of calls to `pickRandomStudent`, one per entry of `choices`
(each entry is that call's random draw); each call acts on the roster the
previous call left behind. -/
def pickIter (d : ℚ) (roster : List Student) : List ℕ → List Student
  | [] => roster
  | c :: cs => pickIter d (pickRandomStudent d roster c).2 cs

/-! ### Spinner animation model -/

/-- Python `int(x)` truncation toward zero on an exact value. -/
def pyInt (q : ℚ) : ℤ :=
  if 0 ≤ q then ⌊q⌋ else ⌈q⌉

/-- The local helper inside `startSpinnerSpinAnimation`:
`forwardDistance(targetIndex, startIndex, size) = (targetIndex - startIndex) % size`
with Python's `%` (result has the sign of the divisor), i.e. `Int.emod`. -/
def forwardDistance (targetIndex startIndex size : ℕ) : ℕ :=
  (((targetIndex : ℤ) - (startIndex : ℤ)) % (size : ℤ)).toNat

/-- `indices = [i for i, name in enumerate(self.spinNameList) if name == targetName]`. -/
def targetIndices (strip : List String) (targetName : String) : List ℕ :=
  (List.range strip.length).filter fun i => strip.getD i "" = targetName

/-- The `totalSpinFrameCount` computed by `startSpinnerSpinAnimation`
(lines 328-349): for a non-empty strip and a present target,
`minFullSpins * totalNames + minForward` with `minFullSpins = 2`; for an
absent target or no selected student, `totalNames * 2`; for an empty strip,
`0`.  `target` is `selectedStudentForSpin`'s name, if any. -/
def computeTotalSpinFrameCount (strip : List String) (startIndex : ℕ)
    (target : Option String) : ℕ :=
  let totalNames := strip.length
  if 0 < totalNames then
    match target with
    | some targetName =>
        match (targetIndices strip targetName).map
            (fun idx => forwardDistance idx startIndex totalNames) with
        | [] => totalNames * 2
        | dist :: dists => 2 * totalNames + dists.foldl min dist
    | none => totalNames * 2
  else 0

/-- The spin-related state of `RandomStudentPickerApp` (widget handles and
labels excluded). -/
structure AppState where
  roster : List Student
  weightDecreaseAmount : ℚ
  isSpinning : Bool
  currentSpinFrameIndex : ℕ
  totalSpinFrameCount : ℕ
  spinNameList : List String
  currentCenterNameIndex : ℕ
  selectedStudentForSpin : Option Student
deriving DecidableEq, Repr

/-- `finishSpinnerSpinAnimation`: relabels the centre slot (UI only) and
clears `isSpinning`.  The forced relabel touches widgets, not this state. -/
def finishSpinnerSpinAnimation (st : AppState) : AppState :=
  { st with isSpinning := false }

/-- One call of `animateSpinnerSpinFrame`: finish when the frame budget is
spent or the strip is empty; otherwise advance the centre index by
`+1 mod len`, bump the frame index, and (in the source) schedule the next
call after `spinFrameDelay`. -/
def animateSpinnerSpinFrame (st : AppState) : AppState :=
  if st.totalSpinFrameCount ≤ st.currentSpinFrameIndex then
    finishSpinnerSpinAnimation st
  else if st.spinNameList.isEmpty then
    finishSpinnerSpinAnimation st
  else
    { st with
      currentCenterNameIndex := (st.currentCenterNameIndex + 1) % st.spinNameList.length,
      currentSpinFrameIndex := st.currentSpinFrameIndex + 1 }

/-- Lines 324-349 of `startSpinnerSpinAnimation`: set `isSpinning`, reset
the frame index, re-randomize the centre (`random.randint(0, n-1)`,
modelled as `randStart % n`) and compute `totalSpinFrameCount`. -/
def spinPlan (st : AppState) (randStart : ℕ) : AppState :=
  let totalNames := st.spinNameList.length
  if 0 < totalNames then
    { st with
      isSpinning := true
      currentSpinFrameIndex := 0
      currentCenterNameIndex := randStart % totalNames
      totalSpinFrameCount :=
        computeTotalSpinFrameCount st.spinNameList (randStart % totalNames)
          (st.selectedStudentForSpin.map Student.name) }
  else
    { st with
      isSpinning := true
      currentSpinFrameIndex := 0
      totalSpinFrameCount := 0 }

/-- `startSpinnerSpinAnimation`: build the plan, then immediately run the
first `animateSpinnerSpinFrame` call (line 351). -/
def startSpinnerSpinAnimation (st : AppState) (randStart : ℕ) : AppState :=
  animateSpinnerSpinFrame (spinPlan st randStart)

/-- `onSpinnerPickStudentButtonClicked`: bail out when no students are
loaded (only switches tabs) or while a spin is in flight; otherwise pick a
student and, on success, store it and start the animation.  `pickChoice`
and `randStart` model the two random draws. -/
def onSpinnerPickStudentButtonClicked (st : AppState) (pickChoice randStart : ℕ) :
    AppState :=
  if st.roster.isEmpty then st
  else if st.isSpinning then st
  else
    match pickRandomStudent st.weightDecreaseAmount st.roster pickChoice with
    | (none, r) => { st with roster := r }
    | (some sel, r) =>
        startSpinnerSpinAnimation
          { st with roster := r, selectedStudentForSpin := some sel } randStart

/-- Run `k` scheduled calls of `animateSpinnerSpinFrame`. -/
def runAnimationSteps (st : AppState) : ℕ → AppState
  | 0 => st
  | k + 1 => runAnimationSteps (animateSpinnerSpinFrame st) k

/-- `updateSpinnerDelaysFromSpeed(sliderValue)` (lines 538-543), with the
hard-coded slow/fast bounds 80/10 and 400/80 ms (lines 151-154); returns
`(minimumSpinDelayMilliseconds, maximumSpinDelayMilliseconds)`. -/
def updateSpinnerDelaysFromSpeed (sliderValue : ℚ) : ℤ × ℤ :=
  let time := sliderValue / 100
  (pyInt (80 + (10 - 80) * time), pyInt (400 + (80 - 400) * time))

/-- The delay computed by `animateSpinnerSpinFrame` (lines 365-367):
`progress = i / total` (or `1.0` when `total = 0`),
`int(minDelay + (maxDelay - minDelay) * progress ** 2)`. -/
def spinFrameDelay (minDelay maxDelay : ℤ) (frameIndex total : ℕ) : ℤ :=
  let progress : ℚ := if 0 < total then (frameIndex : ℚ) / (total : ℚ) else 1
  pyInt ((minDelay : ℚ) + ((maxDelay : ℚ) - (minDelay : ℚ)) * progress ^ 2)

/-- The spec's exact (untruncated) per-step delay formula:
`delay(i) = minDelay + (maxDelay - minDelay) · (i/total)²`. -/
def specDelayFormula (minDelay maxDelay : ℚ) (frameIndex total : ℕ) : ℚ :=
  minDelay + (maxDelay - minDelay) * ((frameIndex : ℚ) / (total : ℚ)) ^ 2

/-- The spec's exact linear interpolation for the minimum delay:
`minDelay = slowMin + (fastMin - slowMin)·(s/100)` with bounds 80/10 ms. -/
def specMinDelayFormula (s : ℚ) : ℚ := 80 + (10 - 80) * (s / 100)

/-- The spec's exact linear interpolation for the maximum delay, bounds
400/80 ms. -/
def specMaxDelayFormula (s : ℚ) : ℚ := 400 + (80 - 400) * (s / 100)

theorem mem_activeIndices {roster : List Student} {i : ℕ} :
    i ∈ activeIndices roster ↔
      i < roster.length ∧ 0 < (roster.getD i defaultStudent).weight := by
  simp [activeIndices, List.mem_filter, List.mem_range]

/-- Core description of a successful pick: some in-bounds index `i` with
positive weight is selected, the result is the updated student, and the new
roster is the old one with only position `i` overwritten. -/
theorem pickRandomStudent_some_spec {d : ℚ} {roster : List Student} {choice : ℕ}
    {s : Student} {r : List Student}
    (h : pickRandomStudent d roster choice = (some s, r)) :
    ∃ i, i < roster.length ∧ 0 < (roster.getD i defaultStudent).weight ∧
      s = updateSelectedStudent d (roster.getD i defaultStudent) ∧
      r = roster.set i s := by
  unfold pickRandomStudent at h
  split at h
  · exact absurd (congrArg Prod.fst h) (by simp)
  · next i is hact =>
    simp only [Prod.mk.injEq, Option.some.injEq] at h
    obtain ⟨hs, hr⟩ := h
    set idx := (i :: is).getD (choice % (i :: is).length) i with hidx
    have hmem : idx ∈ (i :: is) := by
      have hlt : choice % (i :: is).length < (i :: is).length :=
        Nat.mod_lt _ (by simp)
      rw [hidx, List.getD_eq_getElem _ _ hlt]
      exact List.getElem_mem _
    have hmem' : idx ∈ activeIndices roster := by rw [hact]; exact hmem
    obtain ⟨hlt, hw⟩ := mem_activeIndices.mp hmem'
    exact ⟨idx, hlt, hw, hs.symm, by rw [← hr, hs]⟩

theorem set_getElem_self_eq {α : Type} (l : List α) (i : ℕ) (h : i < l.length) :
    l.set i l[i] = l := by
  apply List.ext_getElem (by simp)
  intro j hj hj'
  by_cases hij : i = j
  · subst hij; simp
  · rw [List.getElem_set_ne hij]

/-- Overwriting one roster slot with a student of the same name leaves the
name list unchanged. -/
theorem map_name_set {roster : List Student} {i : ℕ} {s : Student}
    (hi : i < roster.length) (hname : s.name = (roster.getD i defaultStudent).name) :
    (roster.set i s).map Student.name = roster.map Student.name := by
  apply List.ext_getElem (by simp)
  intro j hj hj'
  simp only [List.getElem_map]
  by_cases hij : i = j
  · subst hij
    rw [List.getElem_set_self, hname, List.getD_eq_getElem _ _ hi]
  · rw [List.getElem_set_ne hij]

theorem pickRandomStudent_none_of_all_nonpos {d : ℚ} {roster : List Student}
    (h : ∀ s ∈ roster, s.weight ≤ 0) (choice : ℕ) :
    pickRandomStudent d roster choice = (none, roster) := by
  have hact : activeIndices roster = [] := by
    rw [activeIndices, List.filter_eq_nil_iff]
    intro i hi
    rw [List.mem_range] at hi
    have hmem : roster.getD i defaultStudent ∈ roster := by
      rw [List.getD_eq_getElem _ _ hi]
      exact List.getElem_mem _
    simpa using not_lt.mpr (h _ hmem)
  unfold pickRandomStudent
  split
  · rfl
  · next i is hact' => rw [hact] at hact'; exact absurd hact' (by simp)

theorem pickRandomStudent_none_eq {d : ℚ} {roster r : List Student} {choice : ℕ}
    (h : pickRandomStudent d roster choice = (none, r)) : r = roster := by
  unfold pickRandomStudent at h
  split at h
  · exact (congrArg Prod.snd h).symm
  · exact absurd (congrArg Prod.fst h) (by simp)

/-- A single call to `pickRandomStudent` never changes the name list (hence
neither membership, order, nor length of the roster). -/
theorem pickRandomStudent_map_name (d : ℚ) (roster : List Student) (choice : ℕ) :
    ((pickRandomStudent d roster choice).2).map Student.name
      = roster.map Student.name := by
  rcases h : pickRandomStudent d roster choice with ⟨o, r⟩
  rcases o with _ | s
  · rw [pickRandomStudent_none_eq h]
  · obtain ⟨i, hi, _, hs, hr⟩ := pickRandomStudent_some_spec h
    subst hr
    exact map_name_set hi (by rw [hs]; rfl)

theorem pickIter_map_name (d : ℚ) (cs : List ℕ) (roster : List Student) :
    (pickIter d roster cs).map Student.name = roster.map Student.name := by
  induction cs generalizing roster with
  | nil => rfl
  | cons c cs ih =>
      rw [pickIter, ih]
      exact pickRandomStudent_map_name d roster c

/-- On a positive-weight singleton roster every draw selects that student. -/
theorem pickRandomStudent_singleton_pos (d : ℚ) (nm : String) (w : ℚ) (c : ℤ)
    (hw : 0 < w) (choice : ℕ) :
    pickRandomStudent d [⟨nm, w, c⟩] choice =
      (some ⟨nm, max (w - d) 0, c + 1⟩, [⟨nm, max (w - d) 0, c + 1⟩]) := by
  have hact : activeIndices [⟨nm, w, c⟩] = [0] := by
    simp [activeIndices, List.range_succ, defaultStudent, hw]
  simp [pickRandomStudent, hact, updateSelectedStudent, defaultStudent]

theorem max_sub_step (w d k : ℚ) (hd : 0 ≤ d) (hk : 0 ≤ k) :
    max (max (w - d) 0 - k * d) 0 = max (w - (d + k * d)) 0 := by
  rcases le_total (w - d) 0 with h | h
  · rw [max_eq_right h]
    have h1 : 0 - k * d ≤ 0 := by nlinarith
    have h2 : w - (d + k * d) ≤ 0 := by nlinarith
    rw [max_eq_right h1, max_eq_right h2]
  · rw [max_eq_left h]
    congr 1
    ring

/-- Closed form for the singleton roster: after `cs.length` pick attempts
the weight is `max (w - cs.length·d) 0`. -/
theorem pickIter_singleton_weight (d : ℚ) (hd : 0 < d) (nm : String) :
    ∀ (cs : List ℕ) (w : ℚ) (c : ℤ), 0 ≤ w →
      ∃ c', pickIter d [⟨nm, w, c⟩] cs = [⟨nm, max (w - cs.length * d) 0, c'⟩] := by
  intro cs
  induction cs with
  | nil =>
      intro w c hw0
      exact ⟨c, by simp [pickIter, max_eq_left hw0]⟩
  | cons ch cs ih =>
      intro w c hw0
      rcases hw0.lt_or_eq with hw | hw
      · obtain ⟨c', hc'⟩ := ih (max (w - d) 0) (c + 1) (le_max_right _ _)
        refine ⟨c', ?_⟩
        rw [pickIter, pickRandomStudent_singleton_pos d nm w c hw ch, hc']
        have : max (max (w - d) 0 - (cs.length : ℚ) * d) 0
            = max (w - ((ch :: cs).length : ℚ) * d) 0 := by
          rw [max_sub_step w d (cs.length : ℚ) hd.le (by positivity), List.length_cons]
          congr 2
          push_cast
          ring
        rw [this]
      · obtain ⟨c', hc'⟩ := ih w c hw0
        refine ⟨c', ?_⟩
        have hnone : pickRandomStudent d [⟨nm, w, c⟩] ch = (none, [⟨nm, w, c⟩]) :=
          pickRandomStudent_none_of_all_nonpos
            (by intro s hs; rw [List.mem_singleton] at hs; rw [hs]; exact hw.ge) ch
        rw [pickIter, hnone, hc']
        have hkd : (0 : ℚ) ≤ (cs.length : ℚ) * d := by positivity
        have hkd' : (0 : ℚ) ≤ (((ch :: cs).length : ℕ) : ℚ) * d := by positivity
        rw [← hw, max_eq_right (by linarith), max_eq_right (by linarith)]

/-- Small concrete roster used by the witnesses. -/
def sampleRoster : List Student := [⟨"a", 1/2, 0⟩]

/-- Concrete evaluation of one pick on `sampleRoster`, used to discharge
witness hypotheses. -/
theorem samplePick_eq :
    pickRandomStudent (1/10) sampleRoster 0
      = (some ⟨"a", 2/5, 1⟩, [⟨"a", 2/5, 1⟩]) := by
  have hact : activeIndices [(⟨"a", 1/2, 0⟩ : Student)] = [0] := by
    norm_num [activeIndices, List.range_succ, defaultStudent]
  norm_num [pickRandomStudent, sampleRoster, hact, updateSelectedStudent,
    defaultStudent]

/-- C1: when `pickRandomStudent` returns a student, that student's pre-call
weight was strictly positive (so a student with `weight <= 0` is never
returned), its `count` increased by exactly 1, and its weight became
`max(previous weight - weightDecreaseAmount, 0)`: never below 0 and, for a
positive decrease amount, strictly below the previous weight until floored
at 0. -/
theorem pickRandomStudent_selected_decay (d : ℚ) (roster : List Student)
    (choice : ℕ) (s : Student) (r : List Student)
    (h : pickRandomStudent d roster choice = (some s, r)) :
    ∃ i, i < roster.length ∧
      0 < (roster.getD i defaultStudent).weight ∧
      s.count = (roster.getD i defaultStudent).count + 1 ∧
      s.weight = max ((roster.getD i defaultStudent).weight - d) 0 ∧
      0 ≤ s.weight ∧
      (0 < d → s.weight < (roster.getD i defaultStudent).weight) := by
  obtain ⟨i, hi, hw, hs, _⟩ := pickRandomStudent_some_spec h
  subst hs
  exact ⟨i, hi, hw, rfl, rfl, le_max_right _ _,
    fun hd => max_lt (by linarith) hw⟩

/-- Witness for C1: one concrete successful pick. -/
theorem pickRandomStudent_selected_decay_witness :
    ∃ i, i < sampleRoster.length ∧
      0 < (sampleRoster.getD i defaultStudent).weight ∧
      (⟨"a", 2/5, 1⟩ : Student).count = (sampleRoster.getD i defaultStudent).count + 1 ∧
      (⟨"a", 2/5, 1⟩ : Student).weight
        = max ((sampleRoster.getD i defaultStudent).weight - 1/10) 0 ∧
      0 ≤ (⟨"a", 2/5, 1⟩ : Student).weight ∧
      (0 < (1/10 : ℚ) →
        (⟨"a", 2/5, 1⟩ : Student).weight < (sampleRoster.getD i defaultStudent).weight) :=
  pickRandomStudent_selected_decay (1/10) sampleRoster 0 ⟨"a", 2/5, 1⟩ [⟨"a", 2/5, 1⟩]
    samplePick_eq

/-- C4: on a roster with no positive-weight student (the empty roster
included) `pickRandomStudent` returns `None` and hands back the roster
unchanged — every student's weight and count are untouched; the function is
total, so no exception is possible. -/
theorem pickRandomStudent_exhausted (d : ℚ) (roster : List Student) (choice : ℕ)
    (h : ∀ s ∈ roster, s.weight ≤ 0) :
    pickRandomStudent d roster choice = (none, roster) :=
  pickRandomStudent_none_of_all_nonpos h choice

/-- Witness for C4: an all-zero-weight roster and the empty roster. -/
theorem pickRandomStudent_exhausted_witness :
    ((∀ s ∈ ([⟨"z", 0, 3⟩] : List Student), s.weight ≤ 0) ∧
      pickRandomStudent (1/10) [⟨"z", 0, 3⟩] 7 = (none, [⟨"z", 0, 3⟩])) ∧
    pickRandomStudent (1/10) [] 0 = (none, []) := by
  have h1 : ∀ s ∈ ([⟨"z", 0, 3⟩] : List Student), s.weight ≤ 0 := by
    intro s hs
    rw [List.mem_singleton] at hs
    rw [hs]
  exact ⟨⟨h1, pickRandomStudent_exhausted (1/10) [⟨"z", 0, 3⟩] 7 h1⟩,
    pickRandomStudent_exhausted (1/10) [] 0 (by intro s hs; cases hs)⟩

/-- C7: a successful pick rewrites exactly one roster slot (same name, new
count and weight); every other slot is untouched, and the roster's length,
membership and order (its name list) are unchanged. -/
theorem pickRandomStudent_frame (d : ℚ) (roster : List Student) (choice : ℕ)
    (s : Student) (r : List Student)
    (h : pickRandomStudent d roster choice = (some s, r)) :
    ∃ i, i < roster.length ∧
      r = roster.set i s ∧
      r.length = roster.length ∧
      r.getD i defaultStudent = s ∧
      s.name = (roster.getD i defaultStudent).name ∧
      (∀ j, j < roster.length → j ≠ i →
        r.getD j defaultStudent = roster.getD j defaultStudent) ∧
      r.map Student.name = roster.map Student.name := by
  obtain ⟨i, hi, hw, hs, hr⟩ := pickRandomStudent_some_spec h
  subst hr
  have hname : s.name = (roster.getD i defaultStudent).name := by rw [hs]; rfl
  refine ⟨i, hi, rfl, List.length_set .., ?_, hname, ?_, map_name_set hi hname⟩
  · rw [List.getD_eq_getElem _ _ (by simpa using hi), List.getElem_set_self]
  · intro j hj hji
    rw [List.getD_eq_getElem _ _ (by simpa using hj),
      List.getElem_set_ne (fun he => hji he.symm), List.getD_eq_getElem _ _ hj]

/-- Witness for C7: the same concrete successful pick. -/
theorem pickRandomStudent_frame_witness :
    ∃ i, i < sampleRoster.length ∧
      [(⟨"a", 2/5, 1⟩ : Student)] = sampleRoster.set i ⟨"a", 2/5, 1⟩ ∧
      ([(⟨"a", 2/5, 1⟩ : Student)]).length = sampleRoster.length ∧
      ([(⟨"a", 2/5, 1⟩ : Student)]).getD i defaultStudent = ⟨"a", 2/5, 1⟩ ∧
      (⟨"a", 2/5, 1⟩ : Student).name = (sampleRoster.getD i defaultStudent).name ∧
      (∀ j, j < sampleRoster.length → j ≠ i →
        ([(⟨"a", 2/5, 1⟩ : Student)]).getD j defaultStudent
          = sampleRoster.getD j defaultStudent) ∧
      ([(⟨"a", 2/5, 1⟩ : Student)]).map Student.name
        = sampleRoster.map Student.name :=
  pickRandomStudent_frame (1/10) sampleRoster 0 ⟨"a", 2/5, 1⟩ [⟨"a", 2/5, 1⟩]
    samplePick_eq

theorem resetAllStudents_map_name (w : ℚ) (roster : List Student) :
    (resetAllStudents w roster).map Student.name = roster.map Student.name := by
  simp [resetAllStudents]

/-- C5: `resetAllStudents` zeroes every count and sets every weight to the
default; `resetAllWeights` sets every weight and keeps every count; both
are total (never fail) and idempotent; and reset → any pick sequence →
reset restores `count = 0` and `weight = defaultWeight` for the same name
list. -/
theorem reset_operations_spec (w d : ℚ) (roster : List Student) :
    ((resetAllStudents w roster).length = roster.length) ∧
    (∀ i, i < roster.length →
      (resetAllStudents w roster).getD i defaultStudent
        = ⟨(roster.getD i defaultStudent).name, w, 0⟩) ∧
    ((resetAllWeights w roster).length = roster.length) ∧
    (∀ i, i < roster.length →
      (resetAllWeights w roster).getD i defaultStudent
        = { roster.getD i defaultStudent with weight := w }) ∧
    (resetAllStudents w (resetAllStudents w roster) = resetAllStudents w roster) ∧
    (resetAllWeights w (resetAllWeights w roster) = resetAllWeights w roster) ∧
    (∀ cs : List ℕ,
      (resetAllStudents w (pickIter d (resetAllStudents w roster) cs)).map Student.name
        = roster.map Student.name ∧
      ∀ s ∈ resetAllStudents w (pickIter d (resetAllStudents w roster) cs),
        s.count = 0 ∧ s.weight = w) := by
  refine ⟨by simp [resetAllStudents], ?_, by simp [resetAllWeights], ?_,
    by simp [resetAllStudents], by simp [resetAllWeights], ?_⟩
  · intro i hi
    rw [List.getD_eq_getElem _ _ (by simpa [resetAllStudents] using hi),
      List.getD_eq_getElem _ _ hi]
    simp [resetAllStudents]
  · intro i hi
    rw [List.getD_eq_getElem _ _ (by simpa [resetAllWeights] using hi),
      List.getD_eq_getElem _ _ hi]
    simp [resetAllWeights]
  · intro cs
    constructor
    · rw [resetAllStudents_map_name, pickIter_map_name, resetAllStudents_map_name]
    · intro s hs
      obtain ⟨t, _, rfl⟩ := List.mem_map.mp hs
      exact ⟨rfl, rfl⟩

/-- Witness for C5 at a concrete two-student roster and pick sequence. -/
theorem reset_operations_spec_witness :
    ((0 : ℕ) < ([⟨"a", 0, 2⟩, ⟨"b", 3/4, 5⟩] : List Student).length ∧
      (resetAllStudents (1/2) [⟨"a", 0, 2⟩, ⟨"b", 3/4, 5⟩]).getD 0 defaultStudent
        = ⟨(([⟨"a", 0, 2⟩, ⟨"b", 3/4, 5⟩] : List Student).getD 0 defaultStudent).name,
            1/2, 0⟩) ∧
    ((resetAllStudents (1/2)
        (pickIter (1/10) (resetAllStudents (1/2) [⟨"a", 0, 2⟩, ⟨"b", 3/4, 5⟩])
          [0, 1])).map Student.name
      = ([⟨"a", 0, 2⟩, ⟨"b", 3/4, 5⟩] : List Student).map Student.name) := by
  refine ⟨⟨by norm_num, ?_⟩, ?_⟩
  · exact (reset_operations_spec (1/2) (1/10) [⟨"a", 0, 2⟩, ⟨"b", 3/4, 5⟩]).2.1 0
      (by norm_num)
  · exact ((reset_operations_spec (1/2) (1/10) [⟨"a", 0, 2⟩, ⟨"b", 3/4, 5⟩]).2.2.2.2.2.2
      [0, 1]).1

/-- C2: on a singleton roster with initial weight `w > 0` and decay
`d > 0`, the weight after any sequence of picks is `max (w - n·d) 0`, is
never negative, equals exactly 0 after `⌈w / d⌉` picks, and is still
strictly positive after fewer picks. -/
theorem singleton_weight_floor (nm : String) (c : ℤ) (w d : ℚ)
    (hw : 0 < w) (hd : 0 < d) :
    (∀ cs : List ℕ, (pickIter d [⟨nm, w, c⟩] cs).map Student.weight
        = [max (w - cs.length * d) 0]) ∧
    (∀ cs : List ℕ, ∀ s ∈ pickIter d [⟨nm, w, c⟩] cs, 0 ≤ s.weight) ∧
    (∀ cs : List ℕ, cs.length = ⌈w / d⌉₊ →
        (pickIter d [⟨nm, w, c⟩] cs).map Student.weight = [0]) ∧
    (∀ cs : List ℕ, cs.length < ⌈w / d⌉₊ →
        ∀ s ∈ pickIter d [⟨nm, w, c⟩] cs, 0 < s.weight) := by
  have key : ∀ cs : List ℕ, (pickIter d [⟨nm, w, c⟩] cs).map Student.weight
      = [max (w - cs.length * d) 0] := by
    intro cs
    obtain ⟨c', hc'⟩ := pickIter_singleton_weight d hd nm cs w c hw.le
    rw [hc']
    rfl
  refine ⟨key, ?_, ?_, ?_⟩
  · intro cs s hs
    obtain ⟨c', hc'⟩ := pickIter_singleton_weight d hd nm cs w c hw.le
    rw [hc', List.mem_singleton] at hs
    rw [hs]
    exact le_max_right _ _
  · intro cs hlen
    rw [key cs, hlen]
    have h1 : w / d ≤ (⌈w / d⌉₊ : ℚ) := Nat.le_ceil _
    have h2 : w ≤ (⌈w / d⌉₊ : ℚ) * d := by rwa [div_le_iff₀ hd] at h1
    rw [max_eq_right (by linarith)]
  · intro cs hlen s hs
    obtain ⟨c', hc'⟩ := pickIter_singleton_weight d hd nm cs w c hw.le
    rw [hc', List.mem_singleton] at hs
    rw [hs]
    have h1 : (cs.length : ℚ) < w / d := Nat.lt_ceil.mp hlen
    have h2 : (cs.length : ℚ) * d < w := by rwa [lt_div_iff₀ hd] at h1
    exact lt_max_iff.mpr (Or.inl (by linarith))

/-- Witness for C2: weight 1/2, decay 1/10, exactly `⌈(1/2)/(1/10)⌉ = 5`
picks reach weight 0. -/
theorem singleton_weight_floor_witness :
    (0 : ℚ) < 1/2 ∧ (0 : ℚ) < 1/10 ∧
    (pickIter (1/10) [⟨"a", 1/2, 0⟩] [0, 0, 0, 0, 0]).map Student.weight = [0] := by
  refine ⟨by norm_num, by norm_num, ?_⟩
  exact (singleton_weight_floor "a" 0 (1/2) (1/10) (by norm_num) (by norm_num)).2.2.1
    [0, 0, 0, 0, 0] (by norm_num)

theorem foldl_min_le_init : ∀ (l : List ℕ) (a : ℕ), l.foldl min a ≤ a := by
  intro l
  induction l with
  | nil => intro a; exact le_refl a
  | cons b l ih =>
      intro a
      calc (b :: l).foldl min a = l.foldl min (min a b) := rfl
        _ ≤ min a b := ih _
        _ ≤ a := min_le_left _ _

theorem foldl_min_le_mem : ∀ (l : List ℕ) (a b : ℕ), b ∈ l → l.foldl min a ≤ b := by
  intro l
  induction l with
  | nil => intro a b hb; cases hb
  | cons c l ih =>
      intro a b hb
      rcases List.mem_cons.mp hb with rfl | hb
      · calc (b :: l).foldl min a = l.foldl min (min a b) := rfl
          _ ≤ min a b := foldl_min_le_init _ _
          _ ≤ b := min_le_right _ _
      · exact ih _ _ hb

theorem foldl_min_eq_init_or_mem : ∀ (l : List ℕ) (a : ℕ),
    l.foldl min a = a ∨ l.foldl min a ∈ l := by
  intro l
  induction l with
  | nil => intro a; exact Or.inl rfl
  | cons c l ih =>
      intro a
      rcases ih (min a c) with h | h
      · rcases min_choice a c with hm | hm
        · exact Or.inl (by rw [List.foldl_cons, h, hm])
        · exact Or.inr (by rw [List.foldl_cons, h, hm]; exact List.mem_cons_self _ _)
      · exact Or.inr (List.mem_cons_of_mem _ h)

theorem mem_targetIndices {strip : List String} {t : String} {j : ℕ} :
    j ∈ targetIndices strip t ↔ j < strip.length ∧ strip.getD j "" = t := by
  simp [targetIndices, List.mem_filter, List.mem_range]

/-- Characterization of the computed total step count for a non-empty strip
containing the target: it is `2·stripLength + d` where `d` is the minimal
forward distance over all strip positions holding the target name. -/
theorem computeTotal_spec (strip : List String) (start : ℕ) (t : String)
    (hne : strip ≠ []) (ht : t ∈ strip) :
    ∃ j, j < strip.length ∧ strip.getD j "" = t ∧
      computeTotalSpinFrameCount strip start (some t)
        = 2 * strip.length + forwardDistance j start strip.length ∧
      ∀ k, k < strip.length → strip.getD k "" = t →
        forwardDistance j start strip.length ≤ forwardDistance k start strip.length := by
  have hn : 0 < strip.length := List.length_pos.mpr hne
  obtain ⟨j0, hj0, hj0t⟩ : ∃ j, j < strip.length ∧ strip.getD j "" = t := by
    obtain ⟨j, hj, hjt⟩ := List.mem_iff_getElem.mp ht
    exact ⟨j, hj, by rw [List.getD_eq_getElem _ _ hj]; exact hjt⟩
  have hmem0 : forwardDistance j0 start strip.length ∈
      (targetIndices strip t).map (fun idx => forwardDistance idx start strip.length) :=
    List.mem_map_of_mem _ (mem_targetIndices.mpr ⟨hj0, hj0t⟩)
  rcases hTI : (targetIndices strip t).map
      (fun idx => forwardDistance idx start strip.length) with _ | ⟨dist, dists⟩
  · rw [hTI] at hmem0
    cases hmem0
  · have hcompute : computeTotalSpinFrameCount strip start (some t)
        = 2 * strip.length + dists.foldl min dist := by
      simp only [computeTotalSpinFrameCount]
      rw [if_pos hn, hTI]
    have hminmem : dists.foldl min dist ∈ (dist :: dists) := by
      rcases foldl_min_eq_init_or_mem dists dist with h | h
      · rw [h]; exact List.mem_cons_self _ _
      · exact List.mem_cons_of_mem _ h
    rw [← hTI] at hminmem
    obtain ⟨j, hjmem, hjf⟩ := List.mem_map.mp hminmem
    obtain ⟨hjlt, hjt⟩ := mem_targetIndices.mp hjmem
    refine ⟨j, hjlt, hjt, by rw [hcompute, hjf], ?_⟩
    intro k hk hkt
    have hkmem : forwardDistance k start strip.length ∈
        (targetIndices strip t).map (fun idx => forwardDistance idx start strip.length) :=
      List.mem_map_of_mem _ (mem_targetIndices.mpr ⟨hk, hkt⟩)
    rw [hTI] at hkmem
    rw [hjf]
    rcases List.mem_cons.mp hkmem with h | h
    · rw [← h] at *
      exact foldl_min_le_init _ _
    · exact foldl_min_le_mem _ _ _ h

theorem spinPlan_eq_of_ne_nil (st : AppState) (randStart : ℕ)
    (hne : st.spinNameList ≠ []) :
    spinPlan st randStart =
      { st with
        isSpinning := true
        currentSpinFrameIndex := 0
        currentCenterNameIndex := randStart % st.spinNameList.length
        totalSpinFrameCount :=
          computeTotalSpinFrameCount st.spinNameList
            (randStart % st.spinNameList.length)
            (st.selectedStudentForSpin.map Student.name) } := by
  simp [spinPlan, List.length_pos.mpr hne]

theorem spinPlan_eq_of_nil (st : AppState) (randStart : ℕ)
    (h : st.spinNameList = []) :
    spinPlan st randStart =
      { st with
        isSpinning := true
        currentSpinFrameIndex := 0
        totalSpinFrameCount := 0 } := by
  simp [spinPlan, h]

/-- Concrete spinner state used by the witnesses: strip `[A,B,C,A,B,C]`,
selected student named `C`. -/
def sampleSpinState : AppState where
  roster := sampleRoster
  weightDecreaseAmount := 1/10
  isSpinning := false
  currentSpinFrameIndex := 0
  totalSpinFrameCount := 60
  spinNameList := ["A", "B", "C", "A", "B", "C"]
  currentCenterNameIndex := 0
  selectedStudentForSpin := some ⟨"C", 2/5, 1⟩

/-- C3: for a non-empty strip containing the selected student's name,
`startSpinnerSpinAnimation` sets the total step count to
`fullSpins·stripLength + d` with `fullSpins = 2`, where `d` is the minimal
`(targetIndex - startIndex) mod stripLength` over the strip positions
holding the target name and the start index is the randomized centre; in
particular for strip `[A,B,C,A,B,C]`, start centre 1 and target `C` the
minimal forward distance is 1 and the total step count is 13. -/
theorem startSpin_total_step_count (st : AppState) (randStart : ℕ) (t : String)
    (hne : st.spinNameList ≠ [])
    (hsel : st.selectedStudentForSpin.map Student.name = some t)
    (ht : t ∈ st.spinNameList) :
    (∃ j, j < st.spinNameList.length ∧ st.spinNameList.getD j "" = t ∧
      (spinPlan st randStart).totalSpinFrameCount
        = 2 * st.spinNameList.length
          + forwardDistance j (randStart % st.spinNameList.length)
              st.spinNameList.length ∧
      ∀ k, k < st.spinNameList.length → st.spinNameList.getD k "" = t →
        forwardDistance j (randStart % st.spinNameList.length) st.spinNameList.length
          ≤ forwardDistance k (randStart % st.spinNameList.length)
              st.spinNameList.length) ∧
    (startSpinnerSpinAnimation st randStart).totalSpinFrameCount
      = (spinPlan st randStart).totalSpinFrameCount ∧
    forwardDistance 2 1 6 = 1 ∧
    computeTotalSpinFrameCount ["A", "B", "C", "A", "B", "C"] 1 (some "C") = 13 := by
  refine ⟨?_, ?_, by decide, by decide⟩
  case refine_2 =>
    rw [startSpinnerSpinAnimation, animateSpinnerSpinFrame]
    split
    · rfl
    · split <;> rfl
  have htotal : (spinPlan st randStart).totalSpinFrameCount
      = computeTotalSpinFrameCount st.spinNameList
          (randStart % st.spinNameList.length)
          (st.selectedStudentForSpin.map Student.name) := by
    rw [spinPlan_eq_of_ne_nil st randStart hne]
  rw [htotal, hsel]
  exact computeTotal_spec st.spinNameList (randStart % st.spinNameList.length) t hne ht

/-- Witness for C3 at the concrete spinner state, random start 1. -/
theorem startSpin_total_step_count_witness :
    (∃ j, j < sampleSpinState.spinNameList.length ∧
      sampleSpinState.spinNameList.getD j "" = "C" ∧
      (spinPlan sampleSpinState 1).totalSpinFrameCount
        = 2 * sampleSpinState.spinNameList.length
          + forwardDistance j (1 % sampleSpinState.spinNameList.length)
              sampleSpinState.spinNameList.length ∧
      ∀ k, k < sampleSpinState.spinNameList.length →
        sampleSpinState.spinNameList.getD k "" = "C" →
        forwardDistance j (1 % sampleSpinState.spinNameList.length)
            sampleSpinState.spinNameList.length
          ≤ forwardDistance k (1 % sampleSpinState.spinNameList.length)
              sampleSpinState.spinNameList.length) ∧
    (startSpinnerSpinAnimation sampleSpinState 1).totalSpinFrameCount
      = (spinPlan sampleSpinState 1).totalSpinFrameCount :=
  let h := startSpin_total_step_count sampleSpinState 1 "C" (by decide) rfl (by decide)
  ⟨h.1, h.2.1⟩

/-- C6: a spin request while `isSpinning` is a complete no-op (no pick, no
new plan, no change to any spin state); starting a spin sets `isSpinning`;
an animation step with frames remaining leaves it untouched; only
`finishSpinnerSpinAnimation` clears it. -/
theorem single_spin_guard :
    (∀ (st : AppState) (pickChoice randStart : ℕ), st.isSpinning = true →
      onSpinnerPickStudentButtonClicked st pickChoice randStart = st) ∧
    (∀ (st : AppState) (randStart : ℕ), (spinPlan st randStart).isSpinning = true) ∧
    (∀ st : AppState, st.currentSpinFrameIndex < st.totalSpinFrameCount →
      st.spinNameList ≠ [] →
      (animateSpinnerSpinFrame st).isSpinning = st.isSpinning) ∧
    (∀ st : AppState, (finishSpinnerSpinAnimation st).isSpinning = false) := by
  refine ⟨?_, ?_, ?_, ?_⟩
  · intro st c r hspin
    simp [onSpinnerPickStudentButtonClicked, hspin]
  · intro st r
    rcases eq_or_ne st.spinNameList [] with h | h
    · rw [spinPlan_eq_of_nil st r h]
    · rw [spinPlan_eq_of_ne_nil st r h]
  · intro st h1 h2
    rw [animateSpinnerSpinFrame, if_neg (Nat.not_le.mpr h1),
      if_neg (by simpa [List.isEmpty_iff] using h2)]
  · intro st
    rfl

/-- Concrete in-flight spin state used by the C6 witness. -/
def spinningState : AppState where
  roster := sampleRoster
  weightDecreaseAmount := 1/10
  isSpinning := true
  currentSpinFrameIndex := 2
  totalSpinFrameCount := 13
  spinNameList := ["A", "B", "C", "A", "B", "C"]
  currentCenterNameIndex := 1
  selectedStudentForSpin := some ⟨"C", 2/5, 1⟩

/-- Witness for C6 at an in-flight spin. -/
theorem single_spin_guard_witness :
    onSpinnerPickStudentButtonClicked spinningState 0 0 = spinningState ∧
    (spinPlan spinningState 3).isSpinning = true ∧
    (animateSpinnerSpinFrame spinningState).isSpinning = spinningState.isSpinning ∧
    (finishSpinnerSpinAnimation spinningState).isSpinning = false :=
  ⟨single_spin_guard.1 spinningState 0 0 rfl,
   single_spin_guard.2.1 spinningState 3,
   single_spin_guard.2.2.1 spinningState (by decide) (by decide),
   single_spin_guard.2.2.2 spinningState⟩

/-- C9: degraded spins never fail.  On an empty strip the plan has zero
steps and the first animation call terminates it immediately with no step
executed (centre untouched, `isSpinning` back to `false`).  On a non-empty
strip missing the target name the total step count falls back to
`fullSpins·stripLength = 2·stripLength`. -/
theorem degraded_spin_cases :
    (∀ (st : AppState) (randStart : ℕ), st.spinNameList = [] →
      (spinPlan st randStart).totalSpinFrameCount = 0 ∧
      startSpinnerSpinAnimation st randStart
        = finishSpinnerSpinAnimation (spinPlan st randStart) ∧
      (startSpinnerSpinAnimation st randStart).currentCenterNameIndex
        = st.currentCenterNameIndex ∧
      (startSpinnerSpinAnimation st randStart).currentSpinFrameIndex = 0 ∧
      (startSpinnerSpinAnimation st randStart).isSpinning = false) ∧
    (∀ (strip : List String) (start : ℕ) (t : String), strip ≠ [] → t ∉ strip →
      computeTotalSpinFrameCount strip start (some t) = 2 * strip.length) := by
  constructor
  · intro st randStart h
    rw [startSpinnerSpinAnimation, spinPlan_eq_of_nil st randStart h]
    exact ⟨rfl, rfl, rfl, rfl, rfl⟩
  · intro strip start t hne ht
    have hn : 0 < strip.length := List.length_pos.mpr hne
    have hTI : targetIndices strip t = [] := by
      rw [targetIndices, List.filter_eq_nil_iff]
      intro j hj
      rw [List.mem_range] at hj
      simp only [decide_eq_true_eq]
      intro heq
      exact ht (by
        rw [← heq, List.getD_eq_getElem _ _ hj]
        exact List.getElem_mem _)
    simp only [computeTotalSpinFrameCount]
    rw [if_pos hn, hTI, List.map_nil]
    exact Nat.mul_comm _ _

/-- Concrete empty-strip state used by the C9 witness. -/
def emptyStripState : AppState where
  roster := []
  weightDecreaseAmount := 1/10
  isSpinning := false
  currentSpinFrameIndex := 3
  totalSpinFrameCount := 60
  spinNameList := []
  currentCenterNameIndex := 4
  selectedStudentForSpin := none

/-- Witness for C9: an empty strip and a strip missing the target. -/
theorem degraded_spin_cases_witness :
    ((spinPlan emptyStripState 0).totalSpinFrameCount = 0 ∧
      startSpinnerSpinAnimation emptyStripState 0
        = finishSpinnerSpinAnimation (spinPlan emptyStripState 0) ∧
      (startSpinnerSpinAnimation emptyStripState 0).currentCenterNameIndex
        = emptyStripState.currentCenterNameIndex ∧
      (startSpinnerSpinAnimation emptyStripState 0).currentSpinFrameIndex = 0 ∧
      (startSpinnerSpinAnimation emptyStripState 0).isSpinning = false) ∧
    computeTotalSpinFrameCount ["A", "B"] 4 (some "Z")
      = 2 * (["A", "B"] : List String).length :=
  ⟨degraded_spin_cases.1 emptyStripState 0 rfl,
   degraded_spin_cases.2 ["A", "B"] 4 "Z" (by decide) (by decide)⟩

theorem animate_step (st : AppState)
    (hlt : st.currentSpinFrameIndex < st.totalSpinFrameCount)
    (hne : st.spinNameList ≠ []) :
    animateSpinnerSpinFrame st =
      { st with
        currentCenterNameIndex :=
          (st.currentCenterNameIndex + 1) % st.spinNameList.length
        currentSpinFrameIndex := st.currentSpinFrameIndex + 1 } := by
  rw [animateSpinnerSpinFrame, if_neg (Nat.not_le.mpr hlt),
    if_neg (by simpa [List.isEmpty_iff] using hne)]

/-- While frames remain on a non-empty strip, `k` animation steps advance
the centre by `k mod stripLength` and the frame index by `k`, changing
nothing else. -/
theorem runAnimationSteps_center : ∀ (k : ℕ) (st : AppState),
    st.spinNameList ≠ [] →
    st.currentCenterNameIndex < st.spinNameList.length →
    st.currentSpinFrameIndex + k ≤ st.totalSpinFrameCount →
    runAnimationSteps st k =
      { st with
        currentCenterNameIndex :=
          (st.currentCenterNameIndex + k) % st.spinNameList.length
        currentSpinFrameIndex := st.currentSpinFrameIndex + k } := by
  intro k
  induction k with
  | zero =>
      intro st hne hc _
      simp [runAnimationSteps, Nat.mod_eq_of_lt hc]
  | succ k ih =>
      intro st hne hc hle
      have hlt : st.currentSpinFrameIndex < st.totalSpinFrameCount := by omega
      have hih := ih
        { st with
          currentCenterNameIndex :=
            (st.currentCenterNameIndex + 1) % st.spinNameList.length
          currentSpinFrameIndex := st.currentSpinFrameIndex + 1 }
        hne (Nat.mod_lt _ (List.length_pos.mpr hne))
        (show st.currentSpinFrameIndex + 1 + k ≤ st.totalSpinFrameCount by omega)
      rw [runAnimationSteps, animate_step st hlt hne, hih]
      dsimp only
      congr 1
      · omega
      · rw [Nat.mod_add_mod]
        congr 1
        omega

/-- After `2·n + forwardDistance j start n` unit steps from `start`, a
cyclic pointer of modulus `n` sits exactly at `j`. -/
theorem landing_index (n start j : ℕ) (hn : 0 < n) (hj : j < n) :
    (start + (2 * n + forwardDistance j start n)) % n = j := by
  have hnz : (n : ℤ) ≠ 0 := by exact_mod_cast hn.ne'
  have he : (forwardDistance j start n : ℤ) = ((j : ℤ) - (start : ℤ)) % (n : ℤ) := by
    rw [forwardDistance, Int.toNat_of_nonneg (Int.emod_nonneg _ hnz)]
  have hcast : (((start + (2 * n + forwardDistance j start n)) % n : ℕ) : ℤ)
      = ((start : ℤ) + (2 * (n : ℤ) + (((j : ℤ) - start) % n))) % n := by
    push_cast [he]
    ring_nf
  have hstep : ((start : ℤ) + (2 * (n : ℤ) + (((j : ℤ) - start) % n))) % n = j := by
    rw [show (start : ℤ) + (2 * (n : ℤ) + (((j : ℤ) - start) % n))
      = ((start : ℤ) + (((j : ℤ) - start) % n)) + (n : ℤ) * 2 by ring]
    rw [Int.add_mul_emod_self_left ((start : ℤ) + (((j : ℤ) - start) % n)) (n : ℤ) 2]
    have hmm : ((start : ℤ) + (((j : ℤ) - start) % n)) % n
        = ((start : ℤ) + ((j : ℤ) - start)) % n := by
      conv_lhs => rw [Int.add_emod]
      conv_rhs => rw [Int.add_emod]
      rw [Int.emod_emod_of_dvd _ dvd_rfl]
    rw [hmm, show (start : ℤ) + ((j : ℤ) - start) = (j : ℤ) by ring]
    exact Int.emod_eq_of_lt (by positivity) (by exact_mod_cast hj)
  exact_mod_cast hcast.trans hstep

/-- C10: without the forced final relabel, for a non-empty strip containing
the selected name and any random start draw, running all
`totalSpinFrameCount` animation steps (each advancing the centre by
`+1 mod stripLength`) lands the centre on a strip position holding the
target name. -/
theorem spin_landing (st : AppState) (randStart : ℕ) (t : String)
    (hne : st.spinNameList ≠ [])
    (hsel : st.selectedStudentForSpin.map Student.name = some t)
    (ht : t ∈ st.spinNameList) :
    st.spinNameList.getD
      ((runAnimationSteps (spinPlan st randStart)
          (spinPlan st randStart).totalSpinFrameCount).currentCenterNameIndex) ""
      = t := by
  have hn : 0 < st.spinNameList.length := List.length_pos.mpr hne
  obtain ⟨j, hj, hjt, htot, _⟩ :=
    computeTotal_spec st.spinNameList (randStart % st.spinNameList.length) t hne ht
  have hrun := runAnimationSteps_center
    (computeTotalSpinFrameCount st.spinNameList (randStart % st.spinNameList.length)
      (st.selectedStudentForSpin.map Student.name))
    { st with
      isSpinning := true
      currentSpinFrameIndex := 0
      currentCenterNameIndex := randStart % st.spinNameList.length
      totalSpinFrameCount :=
        computeTotalSpinFrameCount st.spinNameList (randStart % st.spinNameList.length)
          (st.selectedStudentForSpin.map Student.name) }
    hne (Nat.mod_lt _ hn) (Nat.le_of_eq (Nat.zero_add _))
  rw [spinPlan_eq_of_ne_nil st randStart hne]
  dsimp only
  rw [hrun]
  dsimp only
  rw [hsel, htot, landing_index st.spinNameList.length
    (randStart % st.spinNameList.length) j hn hj]
  exact hjt

/-- Witness for C10 at the concrete spinner state: 13 steps from centre 1
land on an index holding `C`. -/
theorem spin_landing_witness :
    sampleSpinState.spinNameList.getD
      ((runAnimationSteps (spinPlan sampleSpinState 1)
          (spinPlan sampleSpinState 1).totalSpinFrameCount).currentCenterNameIndex) ""
      = "C" :=
  spin_landing sampleSpinState 1 "C" (by decide) rfl (by decide)

/-- Counterexample to C8 as stated: at speed 50 the stored delays are
`(45, 240)`; at step 1 of 2 the scheduled delay is `int(45 + 195·(1/2)²) = 93`
milliseconds while the exact formula gives `375/4 = 93.75`, and at speed 45
the stored minimum delay is `48` while the exact interpolation gives `48.5` —
the code truncates with Python `int`, the claim's formulas have no
truncation. -/
theorem spin_delay_exact_counterexample :
    updateSpinnerDelaysFromSpeed 50 = (45, 240) ∧
    spinFrameDelay 45 240 1 2 = 93 ∧
    specDelayFormula 45 240 1 2 = 375/4 ∧
    ((spinFrameDelay 45 240 1 2 : ℚ) ≠ specDelayFormula 45 240 1 2) ∧
    updateSpinnerDelaysFromSpeed 45 = (48, 256) ∧
    (((updateSpinnerDelaysFromSpeed 45).1 : ℚ) ≠ specMinDelayFormula 45) := by
  refine ⟨?_, ?_, ?_, ?_, ?_, ?_⟩ <;>
    norm_num [updateSpinnerDelaysFromSpeed, spinFrameDelay, pyInt,
      specDelayFormula, specMinDelayFormula]

/-- C8 (amended): the code truncates with Python `int` (floor, all values
here nonnegative): the scheduled delay for step `i` of `total > 0` equals
`⌊minDelay + (maxDelay - minDelay)·(i/total)²⌋`, and for a speed setting
`s ∈ [0,100]` the stored delays are the floors of the linear interpolations
`slowMin + (fastMin - slowMin)·(s/100)` (bounds 80/10 and 400/80 ms). -/
theorem spin_delay_formula (minD maxD : ℤ) (i total : ℕ) (s : ℚ)
    (htotal : 0 < total) (hmin : 0 ≤ minD) (hle : minD ≤ maxD)
    (hs0 : 0 ≤ s) (hs100 : s ≤ 100) :
    spinFrameDelay minD maxD i total
      = ⌊specDelayFormula ((minD : ℤ) : ℚ) ((maxD : ℤ) : ℚ) i total⌋ ∧
    updateSpinnerDelaysFromSpeed s
      = (⌊specMinDelayFormula s⌋, ⌊specMaxDelayFormula s⌋) := by
  constructor
  · have h1 : (0:ℚ) ≤ ((minD : ℤ) : ℚ) := by exact_mod_cast hmin
    have h2 : (0:ℚ) ≤ ((maxD : ℤ) : ℚ) - ((minD : ℤ) : ℚ) :=
      sub_nonneg.mpr (by exact_mod_cast hle)
    have h3 : (0:ℚ) ≤ ((i : ℚ) / (total : ℚ)) ^ 2 := sq_nonneg _
    have hq : (0 : ℚ) ≤ ((minD : ℤ) : ℚ)
        + (((maxD : ℤ) : ℚ) - ((minD : ℤ) : ℚ)) * ((i : ℚ) / (total : ℚ)) ^ 2 := by
      nlinarith
    rw [spinFrameDelay, specDelayFormula, if_pos htotal]
    rw [pyInt, if_pos hq]
  · have hu0 : (0:ℚ) ≤ s / 100 := by positivity
    have hu1 : s / 100 ≤ 1 := by
      rw [div_le_one (by norm_num : (0:ℚ) < 100)]
      exact hs100
    have hmn : (0:ℚ) ≤ 80 + (10 - 80) * (s / 100) := by nlinarith
    have hmx : (0:ℚ) ≤ 400 + (80 - 400) * (s / 100) := by nlinarith
    rw [updateSpinnerDelaysFromSpeed]
    rw [specMinDelayFormula, specMaxDelayFormula]
    simp only [pyInt]
    rw [if_pos hmn, if_pos hmx]

/-- Witness for the amended C8 at step 1 of 2, speed 50. -/
theorem spin_delay_formula_witness :
    (0 < 2) ∧ ((0:ℤ) ≤ 45) ∧ ((45:ℤ) ≤ 240) ∧ ((0:ℚ) ≤ 50) ∧ ((50:ℚ) ≤ 100) ∧
    spinFrameDelay 45 240 1 2
      = ⌊specDelayFormula (((45:ℤ) : ℤ) : ℚ) (((240:ℤ) : ℤ) : ℚ) 1 2⌋ ∧
    updateSpinnerDelaysFromSpeed 50
      = (⌊specMinDelayFormula 50⌋, ⌊specMaxDelayFormula 50⌋) := by
  have h := spin_delay_formula 45 240 1 2 50 (by norm_num) (by norm_num)
    (by norm_num) (by norm_num) (by norm_num)
  exact ⟨by norm_num, by norm_num, by norm_num, by norm_num, by norm_num, h.1, h.2⟩
